import Mathlib

/-!
Shallow embedding of the incremental static-site build engine of the `kkr`
repository, together with theorems settling the claims of its specification.

Go strings and byte strings are both modelled as `List Char` (a Go string is an
immutable byte sequence; the claims never depend on the byte/rune distinction).
Go maps keyed by strings are modelled as association lists; Go's map iteration
order is unspecified, the model iterates in declaration order and every theorem
that could depend on the order says so.  Machine integers (`time.Duration`,
i.e. `int64` nanoseconds) are modelled as `Int`; the values appearing in the
claims are far below the overflow range, so wrap-around is not modelled.
External collaborators (the SHA-256 function from Go's standard library, file
system reads, filters loaded from configuration) are parameters of the model.
-/

set_option autoImplicit false

namespace KkrProof

/-- Go strings / byte slices. -/
abbrev Str := List Char

/-- `filepath.Join` modelled as separator concatenation
(path cleaning is irrelevant to every claim). -/
def pathJoin (a b : Str) : Str := a ++ '/' :: b

/-! ## assets.go: the asset dependency resolver -/

/-- The buffer sigil `$` (assets.go line 21, `const bufSigil = '$'`). -/
def bufSigil : Char := '$'

/-- assets.go `type Asset struct` (lines 23-34).  `Filter` is configuration
consumed at load time into the filter collection; the loaded filters appear in
`Env.filters` below, so the raw YAML value is not carried here. -/
structure Asset where
  name : Str
  files : List Str
  separator : Str
  outName : Str
  result : Str
  processed : Bool
deriving DecidableEq

/-- `c.assets[name]` lookup (Go map access, key is the asset's `Name`). -/
def getA (l : List Asset) (n : Str) : Option Asset :=
  l.find? (fun a => a.name = n)

/-- Mutation of the asset stored under key `n` (Go mutates through the
`*Asset` pointer held in the map). -/
def setA (l : List Asset) (n : Str) (x : Asset) : List Asset :=
  l.map (fun b => if b.name = n then x else b)

/-- External collaborators of the resolver:
file reads (`os.Open` + `io.Copy`, assets.go 124-131), the filter collection
loaded from configuration (filters.go `Collection`), the SHA-256 digest
(`utils.Hash`, a call into Go's `crypto/sha256`), the file writer
(`filewriter.WriteFile`, modelled here only by whether it succeeds; its own
internals are modelled separately below), and the output directory. -/
structure Env where
  readFile : Str → Option Str
  filters : Str → Option (Str → Option Str)
  hash : Str → List Nat
  writeOk : Str → Str → Bool
  outdir : Str

/-- filters.go `Collection.ApplyFilter` (lines 160-166): if no filter is
registered under the key, the input is returned unchanged. -/
def applyFilter (env : Env) (key : Str) (input : Str) : Option Str :=
  match env.filters key with
  | none => some input
  | some f => f input

/-- utils.go `NoVowelsHexEncode` (lines 221-229); `hextable[v>>4]` and
`hextable[v&0x0f]` for each byte `v < 256` (the `% 16` on the high nibble is
the identity for bytes). -/
def hextable : Str := "0123456789vbcdzf".toList

/-- One nibble of `NoVowelsHexEncode`. -/
def hexChar (n : Nat) : Char := hextable.getD (n % 16) '0'

/-- utils.go `NoVowelsHexEncode` (lines 221-229). -/
def noVowelsHexEncode (b : List Nat) : Str :=
  b.foldr (fun v acc => hexChar (v / 16) :: hexChar v :: acc) []

/-- Go `strings.Replace(s, pat, rep, -1)`: replace every leftmost
non-overlapping occurrence.  The only pattern used by the source is `":hash"`,
which is nonempty; for an empty pattern this model returns `s` unchanged
(Go would instead interleave `rep`), a case the source never exercises. -/
def replaceAllAux (pat rep : Str) : Nat → Str → Str
  | 0, s => s
  | _ + 1, [] => []
  | fuel + 1, c :: rest =>
    if pat ≠ [] ∧ pat.isPrefixOf (c :: rest) then
      rep ++ replaceAllAux pat rep fuel ((c :: rest).drop pat.length)
    else
      c :: replaceAllAux pat rep fuel rest

/-- Entry point of the replacement: each step consumes at least one input
character, so the input length is enough fuel. -/
def replaceAll (pat rep s : Str) : Str :=
  replaceAllAux pat rep s.length s

/-- utils.go `TemplatedHash` (lines 66-72), with the SHA-256 digest passed in:
replace `":hash"` in the template by the no-vowel hex encoding of the first 10
bytes of the hash of the input. -/
def templatedHash (hash : Str → List Nat) (template input : Str) : Str :=
  replaceAll ":hash".toList (noVowelsHexEncode ((hash input).take 10)) template

/-- Errors produced by the resolver (assets.go error returns). -/
inductive PErr where
  /-- assets.go line 113: `asset %q not found`. -/
  | assetNotFound (name : Str)
  /-- assets.go lines 124-131: `os.Open` / `io.Copy` failure. -/
  | readError (file : Str)
  /-- assets.go lines 138-141: the filter returned an error. -/
  | filterError (name : Str)
  /-- assets.go line 155: `templated hash for asset %s returned empty result`. -/
  | emptyTemplatedHash (name : Str)
  /-- assets.go lines 160-162: `fw.WriteFile` failure. -/
  | writeError (file : Str)
  /-- Modelling artifact: the source recurses unboundedly on circular
  back-references (the `BUG` comment at assets.go line 117); the model carries
  fuel and reports exhaustion instead of diverging. -/
  | fuelExhausted
deriving DecidableEq

/-- The mutable state threaded through a build: the asset map, plus a log of
the files written through `fw.WriteFile` (path and bytes). -/
structure BuildState where
  assets : List Asset
  written : List (Str × Str)
deriving DecidableEq

/-- Result of `ProcessAsset`: Go mutations persist even when an error is
returned, so the error constructor carries the state as well. -/
inductive PRes where
  | ok : BuildState → PRes
  | err : PErr → BuildState → PRes
deriving DecidableEq

/-- Result of the source-concatenation loop: final state plus concatenated
string, or an error with the state at the point of failure. -/
inductive CRes where
  | ok : BuildState → Str → CRes
  | err : PErr → BuildState → CRes
deriving DecidableEq

/-- assets.go `isBufferName` (lines 98-100). -/
def isBufferName (s : Str) : Bool :=
  match s with
  | [] => false
  | c :: _ => c = bufSigil

/-- assets.go lines 137-164 of `ProcessAsset`: everything after the
concatenation loop, starting from the result of `filters.ApplyFilter`
(`none` models a filter error).  `a` is the asset being processed (already
looked up), `st` the state after concatenation. -/
def finishAsset (env : Env) (st : BuildState) (a : Asset) (filtered : Option Str) : PRes :=
  match filtered with
  | none => .err (.filterError a.name) st
  | some b =>
    if a.outName = [bufSigil] then
      -- buffered: a.Result = string(b); a.processed = true (lines 142-148)
      .ok { st with assets := setA st.assets a.name { a with result := b, processed := true } }
    else
      -- materialized: a.Result = utils.TemplatedHash(a.OutName, b) (line 152)
      let res := templatedHash env.hash a.outName b
      if res = [] then
        -- line 154-156: the error return leaves a.Result mutated to ""
        .err (.emptyTemplatedHash a.name)
          { st with assets := setA st.assets a.name { a with result := res } }
      else
        let outfile := pathJoin env.outdir res
        if env.writeOk outfile b then
          .ok { assets := setA st.assets a.name { a with result := res, processed := true },
                written := st.written ++ [(outfile, b)] }
        else
          -- write failed: a.Result already holds the templated name, processed stays false
          .err (.writeError outfile)
            { st with assets := setA st.assets a.name { a with result := res } }

mutual

/-- assets.go `ProcessAsset` (lines 102-165).  The source has no fuel and
hangs on circular references (BUG comment, line 117); `fuel` bounds the
recursion depth of the model, and the early return for an already processed
asset (line 103) is checked before fuel, exactly as in the source. -/
def processAsset (env : Env) (fuel : Nat) (st : BuildState) (name : Str) : PRes :=
  match getA st.assets name with
  | none => .err (.assetNotFound name) st
  | some a =>
    if a.processed then .ok st
    else
      match fuel with
      | 0 => .err .fuelExhausted st
      | f + 1 =>
        match concatSources env f st a.separator a.files with
        | .err e st1 => .err e st1
        | .ok st1 buf => finishAsset env st1 a (applyFilter env a.name buf)
termination_by (fuel, 0, 0)

/-- The concatenation loop of `ProcessAsset` (assets.go lines 108-136):
each source contributes its piece, with the separator written after every
entry except the last (`if i != len(a.Files)-1`). -/
def concatSources (env : Env) (fuel : Nat) (st : BuildState) (sep : Str) :
    List Str → CRes
  | [] => .ok st []
  | [f] =>
    match sourcePiece env fuel st f with
    | .err e st1 => .err e st1
    | .ok st1 piece => .ok st1 piece
  | f :: g :: rest =>
    match sourcePiece env fuel st f with
    | .err e st1 => .err e st1
    | .ok st1 piece =>
      match concatSources env fuel st1 sep (g :: rest) with
      | .err e st2 => .err e st2
      | .ok st2 tail => .ok st2 (piece ++ sep ++ tail)
termination_by files => (fuel, files.length, 2)

/-- One source's contribution (assets.go lines 110-132): a back-reference is
resolved first if not yet processed and contributes the referenced asset's
`Result`; a literal source contributes the file's contents. -/
def sourcePiece (env : Env) (fuel : Nat) (st : BuildState) (f : Str) : CRes :=
  if isBufferName f then
    -- name[1:]: the reference without the sigil
    match getA st.assets (f.drop 1) with
    | none => .err (.assetNotFound (f.drop 1)) st
    | some refAsset =>
      if refAsset.processed then .ok st refAsset.result
      else
        match processAsset env fuel st (f.drop 1) with
        | .err e st1 => .err e st1
        | .ok st1 =>
          -- the source reads refAsset.Result through the pointer after the
          -- recursive call; the model re-reads the updated map entry
          match getA st1.assets (f.drop 1) with
          | none => .err (.assetNotFound (f.drop 1)) st1
          | some refA => .ok st1 refA.result
  else
    match env.readFile f with
    | none => .err (.readError f) st
    | some s => .ok st s
termination_by (fuel, 0, 1)

end

/-- assets.go `Process` (lines 74-82): process every asset of the collection
in turn, stopping at the first error.  The Go map iteration order is
unspecified; the model iterates the given name list. -/
def processList (env : Env) (fuel : Nat) : BuildState → List Str → PRes
  | st, [] => .ok st
  | st, n :: rest =>
    match processAsset env fuel st n with
    | .err e st1 => .err e st1
    | .ok st1 => processList env fuel st1 rest

/-- assets.go `Process` over the whole collection. -/
def processCollection (env : Env) (fuel : Nat) (st : BuildState) : PRes :=
  processList env fuel st (st.assets.map (·.name))

/-- Result of collection loading. -/
inductive LoadRes where
  | ok : List Asset → LoadRes
  /-- assets.go line 64: `duplicate asset name %q`. -/
  | dup : Str → LoadRes
deriving DecidableEq

/-- The duplicate-name check of assets.go `Load` (lines 62-70): assets are
inserted into the map one by one, failing if the name already exists.
(`AddFromYAML` loads the filter collection, abstracted by `Env.filters`.) -/
def loadLoop (acc : List Asset) : List Asset → LoadRes
  | [] => .ok acc
  | v :: rest =>
    match getA acc v.name with
    | some _ => .dup v.name
    | none => loadLoop (acc ++ [v]) rest

/-- assets.go `Load` starting from the parsed YAML asset list. -/
def loadAssets (l : List Asset) : LoadRes := loadLoop [] l

/-- The contribution of a single source when every back-reference is already
processed: the referenced asset's `Result`, or the literal file's contents
(empty on a read failure, a case excluded by hypothesis wherever used).
This is the specification-side description of a source's bytes. -/
def resolvedPiece (env : Env) (st : BuildState) (f : Str) : Str :=
  if isBufferName f then
    match getA st.assets (f.drop 1) with
    | none => []
    | some a => a.result
  else
    match env.readFile f with
    | none => []
    | some s => s

/-- Example collaborators for concrete instantiations of the theorems. -/
def exEnv : Env :=
  { readFile := fun f => if f = "lit.txt".toList then some "LMN".toList else none
    filters := fun _ => none
    hash := fun s => (List.range 32).map (fun i => (i + s.length) % 256)
    writeOk := fun _ _ => true
    outdir := "out".toList }

/-- A buffered asset that is already resolved, with result `"XY"`. -/
def exAssetDone : Asset :=
  { name := "a".toList, files := ["src.css".toList], separator := [],
    outName := [bufSigil], result := "XY".toList, processed := true }

/-- A materialized asset referencing `$a` and a literal file. -/
def exAssetB : Asset :=
  { name := "b".toList, files := ["$a".toList, "lit.txt".toList],
    separator := "+".toList, outName := "s-:hash.css".toList,
    result := [], processed := false }

/-- A state in which `a` is resolved and `b` is pending. -/
def exStReady : BuildState := { assets := [exAssetDone, exAssetB], written := [] }

/-- An unprocessed buffered asset with no sources. -/
def exAssetE : Asset :=
  { name := "e".toList, files := [], separator := [],
    outName := [bufSigil], result := [], processed := false }

/-- A one-asset collection before processing. -/
def exStE : BuildState := { assets := [exAssetE], written := [] }

/-- The same collection after processing. -/
def exStE1 : BuildState :=
  { assets := [{ exAssetE with result := [], processed := true }], written := [] }

/-- An asset referencing the missing `$ghost`. -/
def exAssetG : Asset :=
  { exAssetE with name := "g".toList, files := ["$ghost".toList], outName := "o".toList }

/-- A collection holding only `exAssetG`. -/
def exStG : BuildState := { assets := [exAssetG], written := [] }

/-- A materialized asset with the empty output-name template. -/
def exAssetM : Asset := { exAssetE with name := "m".toList, outName := [] }

/-- A collection holding only `exAssetM`. -/
def exStM : BuildState := { assets := [exAssetM], written := [] }

/-- The state after processing `b` in `exStReady`: the templated hash of the
filtered concatenation is stored, and the output file is logged. -/
def exStB : BuildState :=
  { assets := [exAssetDone,
      { exAssetB with
          result := templatedHash exEnv.hash exAssetB.outName "XY+LMN".toList,
          processed := true }],
    written := [(pathJoin exEnv.outdir
        (templatedHash exEnv.hash exAssetB.outName "XY+LMN".toList),
      "XY+LMN".toList)] }

/-- A source that is resolvable without recursion: a back-reference to an
asset of the collection that is already processed, or a literal file that can
be read. -/
def sourceReady (env : Env) (st : BuildState) (f : Str) : Prop :=
  (isBufferName f = true →
    ∃ r, getA st.assets (f.drop 1) = some r ∧ r.processed = true)
  ∧ (isBufferName f = false → (env.readFile f).isSome = true)

/-- Build-state evolution invariant used for memoization reasoning: the asset
names are unchanged, and every already processed asset is preserved as is. -/
def keepsProcessed (st st' : BuildState) : Prop :=
  st'.assets.map (·.name) = st.assets.map (·.name)
  ∧ ∀ m b, getA st.assets m = some b → b.processed = true →
      getA st'.assets m = some b

/-! ## site package: the staleness cache (part_003 `LoadPage`, metafile.go `Changed`) -/

/-- An `os.FileInfo` fingerprint as compared by `metafile.Changed`:
modification time, size, mode. -/
structure FileFp where
  modTime : Nat
  size : Nat
  mode : Nat
deriving DecidableEq

/-- metafile.go `Changed` (lines 161-178): true on stat failure or when any
of modtime, size, mode differs from the stored fingerprint. -/
def changed (stat : Str → Option FileFp) (name : Str) (fi : FileFp) : Bool :=
  match stat name with
  | none => true
  | some dfi =>
    if fi.modTime ≠ dfi.modTime then true
    else if fi.size ≠ dfi.size then true
    else if fi.mode ≠ dfi.mode then true
    else false

/-- The parsed data of a page, produced by the external collaborators
(meta map, markup-converted content, permalink handling): opaque to the
cache, modelled as an abstract payload. -/
structure PageData where
  payload : Str
deriving DecidableEq

/-- part_003 `type Page struct` (lines 48-57), restricted to the fields the
cache logic touches: the fingerprint observed at parse time, and the parsed
data. -/
structure SPage where
  fi : FileFp
  data : PageData
deriving DecidableEq

/-- The world `LoadPage` runs against: `stat` is `os.Stat` / `f.Stat()`
(`metafile.Open` stats the file it opens), `parse` is the full parsing
pipeline (front matter, markup conversion, permalink resolution — the
external collaborators), which fails when the file cannot be opened or
parsed. -/
structure SiteWorld where
  stat : Str → Option FileFp
  parse : Str → Option PageData

/-- `cache.Get` (part_003 lines 24-28): map lookup. -/
def cacheGet (m : List (Str × SPage)) (k : Str) : Option SPage :=
  (m.find? (fun e => e.1 = k)).map (·.2)

/-- `cache.Put` (part_003 lines 30-34): map store, replacing any existing
entry for the key. -/
def cachePut (m : List (Str × SPage)) (k : Str) (p : SPage) : List (Str × SPage) :=
  if (m.find? (fun e => e.1 = k)).isSome then
    m.map (fun e => if e.1 = k then (k, p) else e)
  else
    m ++ [(k, p)]

/-- Outcome of `LoadPage` together with the observable effects the claim is
about: the returned page (or an error), whether a full parse was performed
(the external collaborators are only invoked inside the full parse), and the
cache afterwards (`none` = caching disabled, `pageCache == nil`). -/
structure LoadPageOut where
  page : Option SPage
  parsed : Bool
  cache : Option (List (Str × SPage))
deriving DecidableEq

/-- part_003 `LoadPage` (lines 82-156).  A cached entry is returned, without
re-reading or re-parsing, exactly when caching is enabled, an entry exists
for the full path and `metafile.Changed` reports no change; otherwise the
file is opened and fully parsed (`metafile.Open` stats the opened file, so
the new `Page` carries the freshly observed fingerprint) and, when caching
is enabled, the result replaces the cached entry. -/
def loadPage (w : SiteWorld) (cache : Option (List (Str × SPage)))
    (basedir filename : Str) : LoadPageOut :=
  let fullname := pathJoin basedir filename
  let hit : Option SPage :=
    match cache with
    | none => none
    | some m =>
      match cacheGet m fullname with
      | none => none
      | some page => if changed w.stat fullname page.fi then none else some page
  match hit with
  | some page => { page := some page, parsed := false, cache := cache }
  | none =>
    match w.stat fullname, w.parse fullname with
    | some fi, some pd =>
      let p : SPage := { fi := fi, data := pd }
      { page := some p, parsed := true,
        cache := match cache with
                 | none => none
                 | some m => some (cachePut m fullname p) }
    | _, _ => { page := none, parsed := true, cache := cache }

/-- Example fingerprint for concrete instantiations. -/
def exFp : FileFp := { modTime := 100, size := 10, mode := 420 }

/-- The full path of the example page. -/
def exPageName : Str := pathJoin "d".toList "f.md".toList

/-- An example world with one parsable page on disk. -/
def exWorld : SiteWorld :=
  { stat := fun p => if p = exPageName then some exFp else none
    parse := fun p => if p = exPageName then some ⟨"body".toList⟩ else none }

/-- The example page as parsed. -/
def exPage : SPage := { fi := exFp, data := ⟨"body".toList⟩ }

/-! ## fspoll.go: the adaptive polling watcher -/

/-- The fingerprint of a file as held in a watcher snapshot.  Go's
`os.FileMode` carries the directory bit inside the mode word; the model keeps
the directory bit (`isDir`) and the remaining bits (`perm`) separately, and
`Mode()` comparison compares the pair, so equal modes imply equal `IsDir`. -/
structure FInfo where
  isDir : Bool
  perm : Nat
  size : Nat
  modTime : Nat
deriving DecidableEq, Inhabited

/-- A directory tree: a node carries its base name, its file info, and (when
it is a directory) its children.  `filepath.Walk` order is modelled as
pre-order over this tree. -/
inductive FsTree where
  | node : Str → FInfo → List FsTree → FsTree

/-- The exclusion test of fspoll.go `getState` (lines 102-121): a path is
excluded when some glob matches the full path or the base name.
`filepath.Match` is modelled as an abstract total matcher `mf glob s`
(its error on malformed patterns is not modelled; the claims concern
well-formed patterns). -/
def matchedByGlobs (mf : Str → Str → Bool) (globs : List Str) (path base : Str) : Bool :=
  globs.any (fun g => mf g path || mf g base)

mutual

/-- fspoll.go `getState` (lines 96-126) on one node: an excluded file is
skipped, an excluded directory is skipped together with its whole subtree
(`filepath.SkipDir`); otherwise the node is recorded and, for a directory,
its children are walked.  `parent` is the parent's full path; the root node's
name is the watched directory itself and is walked with `parent = []`. -/
def walkNode (mf : Str → Str → Bool) (globs : List Str) (parent : Str) :
    FsTree → List (Str × FInfo)
  | .node name fi children =>
    let path := if parent = [] then name else pathJoin parent name
    if matchedByGlobs mf globs path name then []
    else (path, fi) :: (if fi.isDir then walkKids mf globs path children else [])

/-- The walk over a directory's children, in order. -/
def walkKids (mf : Str → Str → Bool) (globs : List Str) (parent : Str) :
    List FsTree → List (Str × FInfo)
  | [] => []
  | t :: ts => walkNode mf globs parent t ++ walkKids mf globs parent ts

end

/-- fspoll.go `getState`: the snapshot of the watched root. -/
def getState (mf : Str → Str → Bool) (globs : List Str) (root : FsTree) :
    List (Str × FInfo) :=
  walkNode mf globs [] root

/-- Snapshot lookup (Go map access). -/
def lookupFp (s : List (Str × FInfo)) (p : Str) : Option FInfo :=
  (s.find? (fun e => e.1 = p)).map (·.2)

/-- The per-path comparison of fspoll.go `check` (lines 147-160): modes first
(`Mode()` compares the whole mode word, directory bit included); for
non-directories also modification time and size. -/
def fpChanged (ofi nfi : FInfo) : Bool :=
  if (ofi.isDir, ofi.perm) ≠ (nfi.isDir, nfi.perm) then true
  else if !ofi.isDir then
    if ofi.modTime ≠ nfi.modTime then true
    else if ofi.size ≠ nfi.size then true
    else false
  else false

/-- fspoll.go `check` (lines 128-171), given the previous snapshot `old` and
the fresh snapshot `ns`: lengths first, then every new path against the old
snapshot, then deleted paths.  The Go loops exit at the first difference;
existence over an unordered map is modelled by `List.any`. -/
def checkState (old ns : List (Str × FInfo)) : Bool :=
  if ns.length ≠ old.length then true
  else if ns.any (fun e =>
      match lookupFp old e.1 with
      | none => true
      | some ofi => fpChanged ofi e.2) then true
  else if old.any (fun e => (lookupFp ns e.1).isNone) then true
  else false

/-- The specification's fingerprint-difference rule, written from the spec's
words: directories are compared by mode only, files by mode, modification
time and size.  (When the modes agree, both sides agree on being a
directory, since the mode word carries the directory bit.) -/
def fpDifferSpec (ofi nfi : FInfo) : Prop :=
  (ofi.isDir, ofi.perm) ≠ (nfi.isDir, nfi.perm) ∨
    (ofi.isDir = false ∧ (ofi.modTime ≠ nfi.modTime ∨ ofi.size ≠ nfi.size))

/-- The specification's snapshot-difference rule, written from the spec's
words for comparison with `checkState`: two snapshots differ iff their path
sets differ, or some shared path's fingerprint differs. -/
def snapshotsDiffer (old ns : List (Str × FInfo)) : Prop :=
  (¬ ∀ p, p ∈ old.map Prod.fst ↔ p ∈ ns.map Prod.fst) ∨
    (∃ p ofi nfi, lookupFp old p = some ofi ∧ lookupFp ns p = some nfi ∧
      fpDifferSpec ofi nfi)

mutual

/-- `t₁` and `t₂` differ only at excluded paths: either both nodes are
excluded by the glob list (in which case their subtrees are unconstrained),
or they carry the same name and file info and their children differ only at
excluded paths.  `parent` is the parent's full path (`[]` for the root). -/
def sameOffExcluded (mf : Str → Str → Bool) (globs : List Str) (parent : Str) :
    FsTree → FsTree → Prop
  | .node n1 f1 c1, .node n2 f2 c2 =>
    (matchedByGlobs mf globs (if parent = [] then n1 else pathJoin parent n1) n1 = true ∧
     matchedByGlobs mf globs (if parent = [] then n2 else pathJoin parent n2) n2 = true) ∨
    (n1 = n2 ∧ f1 = f2 ∧
      sameKidsOffExcluded mf globs (if parent = [] then n1 else pathJoin parent n1) c1 c2)

/-- Pointwise `sameOffExcluded` over two child lists. -/
def sameKidsOffExcluded (mf : Str → Str → Bool) (globs : List Str) (parent : Str) :
    List FsTree → List FsTree → Prop
  | [], [] => True
  | t :: ts, u :: us =>
      sameOffExcluded mf globs parent t u ∧ sameKidsOffExcluded mf globs parent ts us
  | _, _ => False

end

/-- Example fingerprints for the watcher instantiations (a file whose
modification time changes). -/
def exFi1 : FInfo := ⟨false, 420, 5, 50⟩

/-- Like `exFi1` with a different modification time. -/
def exFi2 : FInfo := ⟨false, 420, 5, 60⟩

/-- A one-file old snapshot. -/
def exSnapOld : List (Str × FInfo) := [("x".toList, exFi1)]

/-- The same path with a changed fingerprint. -/
def exSnapNew : List (Str × FInfo) := [("x".toList, exFi2)]

/-- A literal matcher standing in for `filepath.Match`. -/
def exMatcher : Str → Str → Bool := fun g s => g = s

/-- Exclusion globs for the example. -/
def exGlobs : List Str := ["skip.txt".toList]

/-- A watched tree with a regular file and an excluded file. -/
def exTreeA : FsTree :=
  .node "r".toList ⟨true, 493, 0, 0⟩
    [.node "a.txt".toList exFi1 [], .node "skip.txt".toList exFi1 []]

/-- `exTreeA` with only the excluded file modified. -/
def exTreeB : FsTree :=
  .node "r".toList ⟨true, 493, 0, 0⟩
    [.node "a.txt".toList exFi1 [], .node "skip.txt".toList exFi2 []]

/-- fspoll.go constants (lines 27-30), in nanoseconds (`time.Duration`). -/
def defaultInterval : Int := 1000000000

/-- `SleepAfter = 5 * time.Minute`. -/
def sleepAfter : Int := 300000000000

/-- The interval defaulting of fspoll.go `Watch` (lines 41-49): a zero
interval becomes `DefaultInterval`; a negative `sleepInterval` becomes the
(already defaulted) interval; a zero `sleepInterval` becomes
`DefaultInterval * 5`.  Returns (active interval, idle interval). -/
def watchIntervals (interval sleepInterval : Int) : Int × Int :=
  let interval := if interval = 0 then defaultInterval else interval
  let sleepInterval :=
    if sleepInterval < 0 then interval
    else if sleepInterval = 0 then defaultInterval * 5
    else sleepInterval
  (interval, sleepInterval)

/-- One turn of the polling loop's interval bookkeeping (fspoll.go `start`,
lines 73-86): when a change is detected, the interval for the next sleep
becomes the idle interval if the time since the last emitted change exceeds
`SleepAfter` and the active interval otherwise, and the change time is
recorded; when no change is detected, both are left untouched.
Returns (interval used for the next sleep, new last-change time). -/
def pollStep (interval sleepInterval : Int) (hasChange : Bool)
    (now lastChangeTime cur : Int) : Int × Int :=
  if hasChange then
    (if now - lastChangeTime > sleepAfter then sleepInterval else interval, now)
  else
    (cur, lastChangeTime)

/-! ## filewriter.go: the content-addressable file writer -/

/-- filewriter.go `WriteFile` (lines 84-129): completion messages sent on the
`done` channel are errors or `nil`; `none` models `nil`.  `E` stands for the
Go `error` values, modelled as an abstract type. -/
abbrev Msg (E : Type) := Option E

/-- Helper: the message sent by one `if err != nil { ... done <- err }`
step, given the error value the step's condition observed. -/
def errMsg {E : Type} : Option E → List (Msg E)
  | none => []
  | some e => [some e]

/-- The messages sent by the primary-write goroutine (filewriter.go lines
90-92): exactly one, the result of `ioutil.WriteFile`. -/
def primarySends {E : Type} (writeRes : Option E) : List (Msg E) :=
  [writeRes]

/-- The messages sent by one compression goroutine (filewriter.go lines
96-118), in program order, parameterized by the error observed at each of the
four checked steps (`os.OpenFile`, `z.Write`, `z.Close`, `out.Close`).  None
of the error branches returns, so execution falls through every subsequent
step and the final `done <- nil` (line 117) is always sent. -/
def compressorSends {E : Type} (openRes writeRes zCloseRes outCloseRes : Option E) :
    List (Msg E) :=
  errMsg openRes ++ errMsg writeRes ++ errMsg zCloseRes ++ errMsg outCloseRes ++ [none]

/-- Whether the compression goroutine removed `path.<ext>`
(`os.Remove(out.Name())`, lines 105, 110, 114): removal happens in the write
failure branch and in both close failure branches, in each case before the
error is sent. -/
def compressedRemoved {E : Type} (writeRes zCloseRes outCloseRes : Option E) : Bool :=
  writeRes.isSome || zCloseRes.isSome || outCloseRes.isSome

/-- The collector loop of `WriteFile` (lines 121-128): receive exactly
`nwriters` messages and keep the first error. -/
def firstErr {E : Type} (msgs : List (Msg E)) : Option E :=
  msgs.foldl (fun acc m => match acc with | some _ => acc | none => m) none

/-- `WriteFile`'s return value, given the channel arrival order of all
messages: the first error among the first `nwriters` received. -/
def writeFileReturn {E : Type} (arrivals : List (Msg E)) (nwriters : Nat) : Option E :=
  firstErr (arrivals.take nwriters)

/-- `zs` is an interleaving of `xs` and `ys` (each goroutine's sends arrive
on the channel in its program order; sends of different goroutines interleave
arbitrarily). -/
inductive Merge {α : Type} : List α → List α → List α → Prop
  | nil : Merge [] [] []
  | left {x : α} {xs ys zs : List α} : Merge xs ys zs → Merge (x :: xs) ys (x :: zs)
  | right {y : α} {xs ys zs : List α} : Merge xs ys zs → Merge xs (y :: ys) (y :: zs)

/-! ## hashcache.go: the on-disk hash cache -/

/-- `bufio.NewReader` default buffer size. -/
def bufSize : Nat := 4096

/-- hashcache.go `MaxPathLen` (line 19). -/
def maxPathLen : Nat := 4096

/-- A `bufio.Reader` over a byte sequence: `buffered` is the unconsumed part
of the internal buffer, `rest` the bytes not yet read from the underlying
file.  Bytes are `Nat` values below 256. -/
structure BufReader where
  buffered : List Nat
  rest : List Nat
deriving DecidableEq

/-- One `bufio.Reader.Read(p)` call with `n = len(p)`: if the buffer holds
data, return up to `n` buffered bytes (a short read when fewer than `n` are
buffered — the behavior hashcache.go's `NewFromFile` does not account for);
on an empty buffer, end of file yields `(0, io.EOF)` (modelled as `none`),
a request of at least the buffer size reads directly from the file, and
otherwise one fill of the buffer is performed and served from.
The underlying file read returns everything available up to the request
(regular-file semantics of `os.File.Read`). -/
def bRead (r : BufReader) (n : Nat) : Option (List Nat × BufReader) :=
  if r.buffered ≠ [] then
    some (r.buffered.take n, { r with buffered := r.buffered.drop n })
  else if r.rest = [] then none
  else if bufSize ≤ n then
    some (r.rest.take n, { r with rest := r.rest.drop n })
  else
    let fill := r.rest.take bufSize
    some (fill.take n, { buffered := fill.drop n, rest := r.rest.drop bufSize })

/-- Result of `io.ReadFull` (used by `encoding/binary.Read`): `n` bytes, or a
clean `io.EOF` when nothing could be read at all, or an
`io.ErrUnexpectedEOF`-style failure on a partial read. -/
inductive FullRead where
  | ok : List Nat → BufReader → FullRead
  | eofClean : FullRead
  | failed : FullRead
deriving DecidableEq

/-- `io.ReadFull`: repeated `Read` calls until `need` bytes are gathered.
Each successful `bRead` with a positive request returns at least one byte, so
`need` is enough fuel. -/
def bReadFullAux : Nat → BufReader → Nat → List Nat → FullRead
  | _, r, 0, acc => .ok acc r
  | 0, _, _ + 1, _ => .failed
  | fuel + 1, r, need + 1, acc =>
    match bRead r (need + 1) with
    | none => if acc = [] then .eofClean else .failed
    | some (bs, r1) => bReadFullAux fuel r1 (need + 1 - bs.length) (acc ++ bs)

/-- `io.ReadFull(r, p)` with `len(p) = need`. -/
def bReadFull (r : BufReader) (need : Nat) : FullRead :=
  bReadFullAux need r need []

/-- Little-endian 16-bit encoding (`binary.Write` of `uint16`). -/
def le16 (n : Nat) : List Nat := [n % 256, n / 256 % 256]

/-- Little-endian 64-bit encoding (`binary.Write` of `uint64`). -/
def le64 (n : Nat) : List Nat :=
  [n % 256, n / 256 % 256, n / 65536 % 256, n / 16777216 % 256,
   n / 4294967296 % 256, n / 1099511627776 % 256,
   n / 281474976710656 % 256, n / 72057594037927936 % 256]

/-- The value of a little-endian 16-bit field. -/
def de16 (bs : List Nat) : Nat := bs.getD 0 0 + 256 * bs.getD 1 0

/-- hashcache.go `WriteToFile` (lines 56-104), as the byte sequence produced
on success: the version byte, the map length as little-endian `uint64`, then
for each entry the path length as little-endian `uint16`, the path bytes and
the 16 hash bytes.  A path longer than `MaxPathLen` is an error (`none`); the
cache file is then deleted.  The map is modelled as an association list
(Go's map iteration order is unspecified; the claims compare maps by
contents). -/
def writeToFile (m : List (List Nat × List Nat)) : Option (List Nat) :=
  if m.any (fun e => maxPathLen < e.1.length) then none
  else some (0 :: le64 m.length ++ m.flatMap (fun e => le16 e.1.length ++ e.1 ++ e.2))

/-- One iteration of the `NewFromFile` read loop (hashcache.go lines
134-161), returning the updated map, the reused `hash` variable and the
reader, `none` for a clean end of file, or propagating failure.  The path and
hash reads are single `r.Read` calls whose byte count is ignored: a short
read leaves the tail of `pathBytes` at its zero initialization, and leaves
the tail of the reused `hash` array at its previous contents. -/
inductive LoopStep where
  | cont : List (List Nat × List Nat) → List Nat → BufReader → LoopStep
  | done : LoopStep
  | fail : LoopStep
deriving DecidableEq

/-- Go map store `m[path] = hash`. -/
def mapPut (m : List (List Nat × List Nat)) (k v : List Nat) :
    List (List Nat × List Nat) :=
  if (m.find? (fun e => e.1 = k)).isSome then
    m.map (fun e => if e.1 = k then (k, v) else e)
  else
    m ++ [(k, v)]

/-- The body of the `NewFromFile` loop. -/
def newFromFileStep (m : List (List Nat × List Nat)) (hashVar : List Nat)
    (r : BufReader) : LoopStep :=
  -- binary.Read of the uint16 path length
  match bReadFull r 2 with
  | .eofClean => .done
  | .failed => .fail
  | .ok lenBs r1 =>
    let pathLen := de16 lenBs
    if maxPathLen < pathLen then .fail
    else
      -- pathBytes := make([]byte, pathLen); r.Read(pathBytes[:]) — n ignored
      match bRead r1 pathLen with
      | none => .fail
      | some (bs, r2) =>
        let path := bs ++ List.replicate (pathLen - bs.length) 0
        -- r.Read(hash[:]) — n ignored, hash reused across iterations
        match bRead r2 16 with
        | none => .fail
        | some (hs, r3) =>
          let hash := hs ++ hashVar.drop hs.length
          .cont (mapPut m path hash) hash r3

/-- The `NewFromFile` read loop, with fuel (each iteration consumes at least
two bytes, so the file length bounds the iteration count). -/
def newFromFileLoop : Nat → List (List Nat × List Nat) → List Nat → BufReader →
    Option (List (List Nat × List Nat))
  | 0, _, _, _ => none
  | fuel + 1, m, hashVar, r =>
    match newFromFileStep m hashVar r with
    | .done => some m
    | .fail => none
    | .cont m1 hash1 r1 => newFromFileLoop fuel m1 hash1 r1

/-- hashcache.go `NewFromFile` (lines 106-163) over the file's bytes: read
and check the version byte, read the map length (used only as an allocation
hint), then run the entry loop.  `none` models every error return. -/
def newFromFile (file : List Nat) : Option (List (List Nat × List Nat)) :=
  let r0 : BufReader := { buffered := [], rest := file }
  match bRead r0 1 with
  | none => none
  | some (verBs, r1) =>
    if verBs ≠ [0] then none
    else
      match bReadFull r1 8 with
      | .eofClean => none
      | .failed => none
      | .ok _ r2 => newFromFileLoop (file.length + 1) [] (List.replicate 16 0) r2

/-- The C10 counterexample: a single cache entry whose path has the maximal
allowed length of 4096 bytes (`MaxPathLen`), so the serialized file is 4123
bytes — larger than the 4096-byte `bufio` buffer. -/
def exC10Path : List Nat := List.replicate 4096 97

/-- The entry's 16 hash bytes, all `0xff`. -/
def exC10Hash : List Nat := List.replicate 16 255

/-- The one-entry cache map. -/
def exC10Map : List (List Nat × List Nat) := [(exC10Path, exC10Hash)]

/-- The serialized header after the version byte: the map length 1 as
little-endian `uint64` followed by the path length 4096 as little-endian
`uint16`. -/
def exC10Head : List Nat := [1, 0, 0, 0, 0, 0, 0, 0, 0, 16]

/-- The serialized cache file. -/
def exC10File : List Nat := 0 :: exC10Head ++ exC10Path ++ exC10Hash

/-! ## Theorems -/

/-! ### Supporting lemmas on the asset map -/

theorem getA_name {l : List Asset} {n : Str} {a : Asset} (h : getA l n = some a) :
    a.name = n := by
  have := List.find?_some h
  simpa using this

theorem getA_isSome_iff {l : List Asset} {n : Str} :
    (getA l n).isSome = true ↔ n ∈ l.map (·.name) := by
  induction l with
  | nil => simp [getA]
  | cons b t ih =>
    simp only [getA, List.find?] at ih ⊢
    by_cases hb : b.name = n
    · rw [decide_eq_true hb]
      simp [hb]
    · rw [decide_eq_false hb]
      simp only [List.map_cons, List.mem_cons]
      rw [ih]
      constructor
      · exact Or.inr
      · rintro (h | h)
        · exact absurd h.symm hb
        · exact h

theorem setA_names {l : List Asset} {n : Str} {x : Asset} (hx : x.name = n) :
    (setA l n x).map (·.name) = l.map (·.name) := by
  induction l with
  | nil => rfl
  | cons b t ih =>
    simp only [setA, List.map_cons] at ih ⊢
    by_cases hb : b.name = n
    · rw [if_pos hb, hx, hb]
      exact congrArg _ ih
    · rw [if_neg hb]
      exact congrArg _ ih

theorem getA_setA_other {l : List Asset} {n m : Str} {x : Asset}
    (hm : m ≠ n) (hx : x.name = n) : getA (setA l n x) m = getA l m := by
  induction l with
  | nil => simp [getA, setA]
  | cons b t ih =>
    by_cases hb : b.name = n
    · have hbx : ¬ b.name = m := by rw [hb]; exact fun h => hm h.symm
      have hxm : ¬ x.name = m := by rw [hx]; exact fun h => hm h.symm
      simp only [setA, List.map_cons, getA, List.find?, if_pos hb] at ih ⊢
      rw [decide_eq_false hxm, decide_eq_false hbx]
      exact ih
    · simp only [setA, List.map_cons, getA, List.find?, if_neg hb] at ih ⊢
      cases hd : decide (b.name = m) <;> simp [hd] at ih ⊢
      exact ih

theorem getA_setA_self {l : List Asset} {n : Str} {x : Asset}
    (h : (getA l n).isSome = true) (hx : x.name = n) :
    getA (setA l n x) n = some x := by
  induction l with
  | nil => simp [getA] at h
  | cons b t ih =>
    by_cases hb : b.name = n
    · simp only [setA, List.map_cons, getA, List.find?, if_pos hb]
      rw [decide_eq_true hx]
    · simp only [setA, List.map_cons, getA, List.find?, if_neg hb] at h ⊢
      rw [decide_eq_false hb] at h ⊢
      exact ih h

theorem keepsProcessed_refl (st : BuildState) : keepsProcessed st st :=
  ⟨rfl, fun _ _ h _ => h⟩

theorem keepsProcessed_trans {s1 s2 s3 : BuildState}
    (h12 : keepsProcessed s1 s2) (h23 : keepsProcessed s2 s3) :
    keepsProcessed s1 s3 :=
  ⟨h23.1.trans h12.1, fun m b hm hp => h23.2 m b (h12.2 m b hm hp) hp⟩

theorem keeps_setA {st st1 st2 : BuildState} {a x : Asset} {name : Str}
    (hg : getA st.assets name = some a) (hp : a.processed = false)
    (hk1 : keepsProcessed st st1) (hx : x.name = a.name)
    (h2 : st2.assets = setA st1.assets a.name x) :
    keepsProcessed st st2 := by
  have hname : a.name = name := getA_name hg
  constructor
  · rw [h2, setA_names hx, hk1.1]
  · intro m b0 hm hbp
    by_cases hmn : m = a.name
    · rw [hmn, hname, hg] at hm
      cases hm
      rw [hp] at hbp
      cases hbp
    · rw [h2, getA_setA_other hmn hx]
      exact hk1.2 m b0 hm hbp

theorem finishAsset_keeps {env : Env} {st st1 st' : BuildState} {a : Asset}
    {name : Str} {filtered : Option Str}
    (hg : getA st.assets name = some a) (hp : a.processed = false)
    (hk1 : keepsProcessed st st1)
    (h : finishAsset env st1 a filtered = .ok st') :
    keepsProcessed st st' := by
  cases filtered with
  | none => simp [finishAsset] at h
  | some b =>
    simp only [finishAsset] at h
    split at h
    · cases h
      exact keeps_setA (x := { a with result := b, processed := true }) hg hp hk1 rfl rfl
    · split at h
      · simp at h
      · split at h
        · cases h
          exact keeps_setA
            (x := { a with result := templatedHash env.hash a.outName b, processed := true })
            hg hp hk1 rfl rfl
        · simp at h

mutual

theorem processAsset_keeps (env : Env) (fuel : Nat) (st : BuildState) (name : Str)
    (st' : BuildState) (h : processAsset env fuel st name = .ok st') :
    keepsProcessed st st' := by
  unfold processAsset at h
  split at h
  next => simp at h
  next a hg =>
    split at h
    next =>
      cases h
      exact keepsProcessed_refl _
    next hp =>
      cases fuel with
      | zero => simp at h
      | succ f =>
        simp only [] at h
        split at h
        next => simp at h
        next =>
          rename_i st1 buf hc
          exact finishAsset_keeps hg (by simpa using hp)
            (concatSources_keeps env f st a.separator a.files st1 buf hc) h
termination_by (fuel, 0, 0)

theorem concatSources_keeps (env : Env) (fuel : Nat) (st : BuildState) (sep : Str)
    (files : List Str) (st' : BuildState) (out : Str)
    (h : concatSources env fuel st sep files = .ok st' out) :
    keepsProcessed st st' := by
  match files, h with
  | [], h =>
    unfold concatSources at h
    cases h
    exact keepsProcessed_refl _
  | [f], h =>
    unfold concatSources at h
    split at h
    next => simp at h
    next =>
      rename_i st1 piece hs
      cases h
      exact sourcePiece_keeps env fuel st f _ _ hs
  | f :: g :: rest', h =>
    unfold concatSources at h
    split at h
    next => simp at h
    next =>
      rename_i st1 piece hs
      split at h
      next => simp at h
      next =>
        rename_i st2 tl hc
        cases h
        exact keepsProcessed_trans
          (sourcePiece_keeps env fuel st f _ _ hs)
          (concatSources_keeps env fuel st1 sep (g :: rest') _ _ hc)
termination_by (fuel, files.length, 2)

theorem sourcePiece_keeps (env : Env) (fuel : Nat) (st : BuildState) (f : Str)
    (st' : BuildState) (out : Str) (h : sourcePiece env fuel st f = .ok st' out) :
    keepsProcessed st st' := by
  unfold sourcePiece at h
  split at h
  -- back-reference source
  next =>
    split at h
    next => simp at h
    next =>
      rename_i refAsset hg
      split at h
      next =>
        cases h
        exact keepsProcessed_refl _
      next =>
        split at h
        next => simp at h
        next =>
          rename_i st1 hpa
          split at h
          next => simp at h
          next =>
            rename_i refA hg1
            cases h
            exact processAsset_keeps env fuel st (f.drop 1) _ hpa
  -- literal file source
  next =>
    split at h
    next => simp at h
    next =>
      rename_i s hr
      cases h
      exact keepsProcessed_refl _
termination_by (fuel, 0, 1)

end

theorem processed_early (env : Env) (fuel : Nat) {st : BuildState} {name : Str}
    {a : Asset} (hg : getA st.assets name = some a) (hp : a.processed = true) :
    processAsset env fuel st name = .ok st := by
  unfold processAsset
  rw [hg]
  simp [hp]

theorem processAsset_ok_processed (env : Env) (fuel : Nat) (st : BuildState)
    (name : Str) (st' : BuildState) (h : processAsset env fuel st name = .ok st') :
    ∃ a', getA st'.assets name = some a' ∧ a'.processed = true := by
  unfold processAsset at h
  split at h
  next => simp at h
  next a hg =>
    split at h
    next hp =>
      cases h
      exact ⟨a, hg, hp⟩
    next hp =>
      cases fuel with
      | zero => simp at h
      | succ f =>
        simp only [] at h
        split at h
        next => simp at h
        next =>
          rename_i st1 buf hc
          have hk1 := concatSources_keeps env f st a.separator a.files st1 buf hc
          have hname : a.name = name := getA_name hg
          have hsome1 : (getA st1.assets a.name).isSome = true := by
            rw [hname, getA_isSome_iff, hk1.1, ← getA_isSome_iff, hg]
            rfl
          revert h
          unfold finishAsset
          cases applyFilter env a.name buf with
          | none => intro h; simp at h
          | some b =>
            simp only []
            split
            · intro h
              cases h
              refine ⟨{ a with result := b, processed := true }, ?_, rfl⟩
              show getA (setA st1.assets a.name _) name = _
              rw [← hname]
              exact getA_setA_self hsome1 rfl
            · split
              · intro h; simp at h
              · split
                · intro h
                  cases h
                  refine ⟨{ a with result := templatedHash env.hash a.outName b, processed := true }, ?_, rfl⟩
                  show getA (setA st1.assets a.name _) name = _
                  rw [← hname]
                  exact getA_setA_self hsome1 rfl
                · intro h; simp at h

theorem sourcePiece_ready (env : Env) (fuel : Nat) (st : BuildState) (f : Str)
    (h : sourceReady env st f) :
    sourcePiece env fuel st f = .ok st (resolvedPiece env st f) := by
  unfold sourcePiece resolvedPiece
  cases hb : isBufferName f with
  | true =>
    obtain ⟨r, hr, hp⟩ := h.1 hb
    rw [List.drop_one] at hr
    simp [hb, hr, hp]
  | false =>
    obtain ⟨s, hs⟩ := Option.isSome_iff_exists.mp (h.2 hb)
    simp [hb, hs]

theorem concatSources_ready (env : Env) (fuel : Nat) (st : BuildState) (sep : Str)
    (files : List Str) (h : ∀ f ∈ files, sourceReady env st f) :
    concatSources env fuel st sep files =
      .ok st (sep.intercalate (files.map (resolvedPiece env st))) := by
  induction files with
  | nil =>
    unfold concatSources
    simp [List.intercalate]
  | cons f rest ih =>
    cases rest with
    | nil =>
      unfold concatSources
      rw [sourcePiece_ready env fuel st f (h f (by simp))]
      simp [List.intercalate]
    | cons g rest' =>
      unfold concatSources
      rw [sourcePiece_ready env fuel st f (h f (by simp))]
      simp only []
      rw [ih (fun x hx => h x (by simp [hx]))]
      simp [List.intercalate, List.intersperse]

theorem concatSources_missing (env : Env) (fuel : Nat) (st : BuildState) (sep : Str)
    (pre : List Str) (f : Str) (post : List Str)
    (hpre : ∀ g ∈ pre, sourceReady env st g)
    (hb : isBufferName f = true) (hmiss : getA st.assets (f.drop 1) = none) :
    concatSources env fuel st sep (pre ++ f :: post) =
      .err (.assetNotFound (f.drop 1)) st := by
  rw [List.drop_one] at hmiss ⊢
  induction pre with
  | nil =>
    cases post with
    | nil =>
      unfold concatSources sourcePiece
      simp [hb, hmiss]
    | cons q qs =>
      unfold concatSources sourcePiece
      simp [hb, hmiss]
  | cons g pre' ih =>
    cases hl : pre' ++ f :: post with
    | nil => simp at hl
    | cons q qs =>
      show concatSources env fuel st sep (g :: (pre' ++ f :: post)) = _
      rw [hl]
      unfold concatSources
      rw [sourcePiece_ready env fuel st g (hpre g (by simp))]
      simp only []
      rw [← hl, ih (fun x hx => hpre x (by simp [hx]))]

theorem processList_all_processed (env : Env) (fuel : Nat) (st : BuildState)
    (ns : List Str)
    (h : ∀ n ∈ ns, ∃ a, getA st.assets n = some a ∧ a.processed = true) :
    processList env fuel st ns = .ok st := by
  induction ns with
  | nil => rfl
  | cons n rest ih =>
    obtain ⟨a, hg, hp⟩ := h n (by simp)
    unfold processList
    rw [processed_early env fuel hg hp]
    exact ih (fun m hm => h m (by simp [hm]))

theorem processList_ok (env : Env) (fuel : Nat) (st : BuildState) (ns : List Str)
    (st' : BuildState) (h : processList env fuel st ns = .ok st') :
    keepsProcessed st st' ∧
      ∀ n ∈ ns, ∃ a', getA st'.assets n = some a' ∧ a'.processed = true := by
  induction ns generalizing st with
  | nil =>
    unfold processList at h
    cases h
    exact ⟨keepsProcessed_refl _, by simp⟩
  | cons n rest ih =>
    unfold processList at h
    split at h
    next => simp at h
    next =>
      rename_i st1 hpa
      obtain ⟨hk, hall⟩ := ih st1 h
      refine ⟨keepsProcessed_trans (processAsset_keeps env fuel st n st1 hpa) hk, ?_⟩
      intro m hm
      rcases List.mem_cons.mp hm with hm | hm
      · subst hm
        obtain ⟨a', hg1, hp1⟩ := processAsset_ok_processed env fuel st m st1 hpa
        exact ⟨a', hk.2 m a' hg1 hp1, hp1⟩
      · exact hall m hm

theorem noVowels_length (bs : List Nat) :
    (noVowelsHexEncode bs).length = 2 * bs.length := by
  induction bs with
  | nil => rfl
  | cons v t ih =>
    simp only [noVowelsHexEncode, List.foldr, List.length_cons] at ih ⊢
    omega

theorem loadLoop_dup (l : List Asset) :
    ∀ acc, (¬ (l.map (·.name)).Nodup ∨ ∃ v ∈ l, (getA acc v.name).isSome = true) →
      ∃ n, loadLoop acc l = .dup n := by
  induction l with
  | nil =>
    intro acc h
    rcases h with h | ⟨v, hv, _⟩
    · simp at h
    · simp at hv
  | cons v rest ih =>
    intro acc h
    unfold loadLoop
    cases hg : getA acc v.name with
    | some _ => exact ⟨v.name, rfl⟩
    | none =>
      apply ih
      rcases h with h | ⟨u, hu, hs⟩
      · rw [List.map_cons, List.nodup_cons] at h
        by_cases hm : v.name ∈ rest.map (·.name)
        · right
          obtain ⟨u, hu, hun⟩ := List.mem_map.mp hm
          refine ⟨u, hu, ?_⟩
          rw [getA_isSome_iff, List.map_append, hun]
          simp
        · left
          tauto
      · rcases List.mem_cons.mp hu with rfl | hu'
        · rw [hg] at hs
          cases hs
        · right
          refine ⟨u, hu', ?_⟩
          rw [getA_isSome_iff] at hs ⊢
          rw [List.map_append]
          exact List.mem_append_left _ hs

theorem processAsset_succ (env : Env) (f : Nat) {st : BuildState} {name : Str}
    {a : Asset} (hg : getA st.assets name = some a) (hp : a.processed = false) :
    processAsset env (f + 1) st name =
      match concatSources env f st a.separator a.files with
      | .err e st1 => .err e st1
      | .ok st1 buf => finishAsset env st1 a (applyFilter env a.name buf) := by
  unfold processAsset
  rw [hg]
  simp [hp]

/-- C1: for an unprocessed asset all of whose sources are literal readable
files or back-references to already resolved assets, the concatenation loop
returns, without touching the state, exactly the sources' contributions in
declared order joined by the separator (inserted between consecutive entries,
not after the last — `List.intercalate`); `ProcessAsset` continues by feeding
that concatenation to the asset's named filter, which is the identity when no
filter is configured under the asset's name. -/
theorem kkr_c1 (env : Env) (fuel : Nat) (st : BuildState) (name : Str) (a : Asset)
    (hg : getA st.assets name = some a) (hp : a.processed = false)
    (hready : ∀ f ∈ a.files, sourceReady env st f) :
    concatSources env fuel st a.separator a.files =
      .ok st (a.separator.intercalate (a.files.map (resolvedPiece env st)))
    ∧ processAsset env (fuel + 1) st name =
        finishAsset env st a (applyFilter env a.name
          (a.separator.intercalate (a.files.map (resolvedPiece env st))))
    ∧ (env.filters a.name = none →
        applyFilter env a.name
            (a.separator.intercalate (a.files.map (resolvedPiece env st))) =
          some (a.separator.intercalate (a.files.map (resolvedPiece env st)))) := by
  have hc := concatSources_ready env fuel st a.separator a.files hready
  refine ⟨hc, ?_, ?_⟩
  · rw [processAsset_succ env fuel hg hp, hc]
  · intro hf
    unfold applyFilter
    rw [hf]

/-- Witness for C1 at a concrete collection: asset `b` references the already
resolved `$a` (result `"XY"`) and the literal `lit.txt` (contents `"LMN"`),
with separator `"+"`; the concatenation is `"XY+LMN"`. -/
theorem kkr_c1_witness :
    concatSources exEnv 0 exStReady exAssetB.separator exAssetB.files =
      .ok exStReady "XY+LMN".toList := by
  have h := (kkr_c1 exEnv 0 exStReady "b".toList exAssetB (by decide) (by decide)
    (by
      intro f hf
      have hf' : f = "$a".toList ∨ f = "lit.txt".toList := by
        simpa [exAssetB] using hf
      rcases hf' with rfl | rfl
      · exact ⟨fun _ => ⟨exAssetDone, by decide, by decide⟩, fun hb => absurd hb (by decide)⟩
      · exact ⟨fun hb => absurd hb (by decide), fun _ => by decide⟩)).1
  rw [h]
  rfl

/-- C2: an already processed asset returns immediately with the state
untouched (so each asset's resolution body runs at most once per build), and
a second `Process` pass over a collection that resolved successfully returns
the same state unchanged — identical resolved bytes and identical hashed
output names for every asset, for any fuel. -/
theorem kkr_c2 (env : Env) (fuel fuel' : Nat) (st st' : BuildState) :
    (∀ name a, getA st.assets name = some a → a.processed = true →
      processAsset env fuel st name = .ok st)
    ∧ (processCollection env fuel st = .ok st' →
        processCollection env fuel' st' = .ok st') := by
  constructor
  · intro name a hg hp
    exact processed_early env fuel hg hp
  · intro h
    unfold processCollection at h ⊢
    obtain ⟨hk, hall⟩ := processList_ok env fuel st _ st' h
    apply processList_all_processed
    intro n hn
    rw [hk.1] at hn
    exact hall n hn

/-- Witness for C2: the one-asset collection `exStE` resolves to `exStE1`,
and a second pass over `exStE1` (with different fuel) returns it unchanged;
re-invoking `ProcessAsset` on the processed `e` also returns immediately. -/
theorem kkr_c2_witness :
    processAsset exEnv 7 exStE1 "e".toList = .ok exStE1
    ∧ processCollection exEnv 9 exStE1 = .ok exStE1 := by
  have hready : ∀ f ∈ exAssetE.files, sourceReady exEnv exStE f := by
    intro f hf
    simp [exAssetE] at hf
  have hPA : processAsset exEnv 1 exStE "e".toList = .ok exStE1 := by
    show processAsset exEnv (0 + 1) exStE "e".toList = .ok exStE1
    rw [processAsset_succ exEnv 0
        (by decide : getA exStE.assets "e".toList = some exAssetE) (by decide),
      concatSources_ready exEnv 0 exStE exAssetE.separator exAssetE.files hready]
    decide
  have hPC : processCollection exEnv 1 exStE = .ok exStE1 := by
    show processList exEnv 1 exStE ["e".toList] = .ok exStE1
    unfold processList
    rw [hPA]
    rfl
  constructor
  · exact (kkr_c2 exEnv 7 0 exStE1 exStE1).1 "e".toList
      { exAssetE with result := [], processed := true } (by decide) (by decide)
  · exact (kkr_c2 exEnv 1 9 exStE exStE1).2 hPC

/-- C3: when a materialized asset (output-name template not the sigil `"$"`)
resolves successfully, the output path stored in its `Result` is the template
with every `":hash"` occurrence replaced by the no-vowel hex encoding of the
first 10 bytes of the digest of the *filtered* bytes `b` (the filter's
output, not the raw concatenation), and that encoding has exactly 20
characters when the digest has the 32 bytes of SHA-256. -/
theorem kkr_c3 (env : Env) (fuel : Nat) (st st1 st' : BuildState) (name : Str)
    (a : Asset) (pre b : Str)
    (hg : getA st.assets name = some a) (hp : a.processed = false)
    (hc : concatSources env fuel st a.separator a.files = .ok st1 pre)
    (hf : applyFilter env a.name pre = some b)
    (hmat : a.outName ≠ [bufSigil])
    (hok : processAsset env (fuel + 1) st name = .ok st') :
    (∃ a', getA st'.assets name = some a'
      ∧ a'.result = replaceAll ":hash".toList
          (noVowelsHexEncode ((env.hash b).take 10)) a.outName
      ∧ a'.processed = true)
    ∧ ((env.hash b).length = 32 →
        (noVowelsHexEncode ((env.hash b).take 10)).length = 20) := by
  have hk1 := concatSources_keeps env fuel st a.separator a.files st1 pre hc
  have hname : a.name = name := getA_name hg
  have hsome1 : (getA st1.assets a.name).isSome = true := by
    rw [hname, getA_isSome_iff, hk1.1, ← getA_isSome_iff, hg]
    rfl
  rw [processAsset_succ env fuel hg hp, hc] at hok
  simp only [] at hok
  rw [hf] at hok
  unfold finishAsset at hok
  simp only [] at hok
  rw [if_neg hmat] at hok
  constructor
  · by_cases hres : templatedHash env.hash a.outName b = []
    · rw [if_pos hres] at hok
      simp at hok
    · rw [if_neg hres] at hok
      cases hw : env.writeOk (pathJoin env.outdir (templatedHash env.hash a.outName b)) b with
      | false => rw [hw] at hok; simp at hok
      | true =>
        rw [hw] at hok
        simp only [if_true] at hok
        cases hok
        refine ⟨{ a with result := templatedHash env.hash a.outName b, processed := true },
          ?_, rfl, rfl⟩
        show getA (setA st1.assets a.name _) name = _
        rw [← hname]
        exact getA_setA_self hsome1 rfl
  · intro hlen
    rw [noVowels_length, List.length_take, hlen]
    rfl

/-- Witness for C3 at a concrete collection: `b` materializes with template
`"s-:hash.css"`; its `Result` is the template with `":hash"` replaced by the
20-character encoding of the first 10 bytes of the digest of the filtered
(identity-filtered) concatenation `"XY+LMN"`. -/
theorem kkr_c3_witness :
    processAsset exEnv 1 exStReady "b".toList = .ok exStB
    ∧ ∃ a', getA exStB.assets "b".toList = some a'
      ∧ a'.result = replaceAll ":hash".toList
          (noVowelsHexEncode ((exEnv.hash "XY+LMN".toList).take 10)) exAssetB.outName
      ∧ a'.processed = true
      ∧ (noVowelsHexEncode ((exEnv.hash "XY+LMN".toList).take 10)).length = 20 := by
  have hg : getA exStReady.assets "b".toList = some exAssetB := by decide
  have hready : ∀ f ∈ exAssetB.files, sourceReady exEnv exStReady f := by
    intro f hf
    have hf' : f = "$a".toList ∨ f = "lit.txt".toList := by
      simpa [exAssetB] using hf
    rcases hf' with rfl | rfl
    · exact ⟨fun _ => ⟨exAssetDone, by decide, by decide⟩, fun hb => absurd hb (by decide)⟩
    · exact ⟨fun hb => absurd hb (by decide), fun _ => by decide⟩
  have hc : concatSources exEnv 0 exStReady exAssetB.separator exAssetB.files =
      .ok exStReady "XY+LMN".toList := by
    rw [concatSources_ready exEnv 0 exStReady exAssetB.separator exAssetB.files hready]
    decide
  have hPA : processAsset exEnv 1 exStReady "b".toList = .ok exStB := by
    show processAsset exEnv (0 + 1) exStReady "b".toList = .ok exStB
    rw [processAsset_succ exEnv 0 hg (by decide), hc]
    decide
  have h := kkr_c3 exEnv 0 exStReady exStReady exStB "b".toList exAssetB
    "XY+LMN".toList "XY+LMN".toList hg (by decide) hc (by decide) (by decide) hPA
  obtain ⟨⟨a', hga, hres, hproc⟩, hlen⟩ := h
  exact ⟨hPA, a', hga, hres, hproc, hlen (by decide)⟩

/-- C8: (1) a back-reference to a name not in the collection makes
`ProcessAsset` fail with an error naming the missing asset (any resolvable
sources before it contribute no error); (2) a declared asset list in which
two assets share a name makes collection loading fail with a duplicate-name
error; (3) a materialized asset whose templated output name is empty fails
with an error, and no output file has been written for it (the write log is
unchanged). -/
theorem kkr_c8 :
    (∀ (env : Env) (fuel : Nat) (st : BuildState) (name : Str) (a : Asset)
        (pre : List Str) (f : Str) (post : List Str),
      getA st.assets name = some a → a.processed = false →
      a.files = pre ++ f :: post →
      (∀ g ∈ pre, sourceReady env st g) →
      isBufferName f = true → getA st.assets (f.drop 1) = none →
      processAsset env (fuel + 1) st name = .err (.assetNotFound (f.drop 1)) st)
    ∧ (∀ l : List Asset, ¬ (l.map (·.name)).Nodup → ∃ n, loadAssets l = .dup n)
    ∧ (∀ (env : Env) (fuel : Nat) (st : BuildState) (name : Str) (a : Asset) (b : Str),
      getA st.assets name = some a → a.processed = false →
      (∀ g ∈ a.files, sourceReady env st g) →
      applyFilter env a.name
        (a.separator.intercalate (a.files.map (resolvedPiece env st))) = some b →
      a.outName ≠ [bufSigil] →
      templatedHash env.hash a.outName b = [] →
      ∃ st2, processAsset env (fuel + 1) st name = .err (.emptyTemplatedHash a.name) st2
        ∧ st2.written = st.written) := by
  refine ⟨?_, ?_, ?_⟩
  · intro env fuel st name a pre f post hg hp hfiles hpre hb hmiss
    rw [processAsset_succ env fuel hg hp, hfiles,
      concatSources_missing env fuel st a.separator pre f post hpre hb hmiss]
  · intro l h
    exact loadLoop_dup l [] (Or.inl h)
  · intro env fuel st name a b hg hp hready hf hmat hres
    rw [processAsset_succ env fuel hg hp,
      concatSources_ready env fuel st a.separator a.files hready]
    simp only []
    rw [hf]
    unfold finishAsset
    simp only []
    rw [if_neg hmat, if_pos hres]
    exact ⟨_, rfl, rfl⟩

/-- Witness for C8 at concrete collections: a back-reference `$ghost` to a
missing asset fails naming `ghost`; a list declaring two assets named `"a"`
fails loading; a materialized asset with the empty output-name template
fails with the empty-templated-hash error, writing nothing. -/
theorem kkr_c8_witness :
    processAsset exEnv 1 exStG "g".toList = .err (.assetNotFound "ghost".toList) exStG
    ∧ (∃ n, loadAssets [exAssetE, { exAssetE with files := ["x".toList] }] = .dup n)
    ∧ ∃ st2, processAsset exEnv 1 exStM "m".toList
        = .err (.emptyTemplatedHash "m".toList) st2 ∧ st2.written = [] := by
  refine ⟨?_, ?_, ?_⟩
  · exact kkr_c8.1 exEnv 0 exStG "g".toList exAssetG [] "$ghost".toList []
      (by decide) (by decide) rfl (by intro g hg; simp at hg) (by decide) (by decide)
  · exact kkr_c8.2.1 [exAssetE, { exAssetE with files := ["x".toList] }] (by decide)
  · obtain ⟨st2, he, hw⟩ := kkr_c8.2.2 exEnv 0 exStM "m".toList exAssetM []
      (by decide) (by decide) (by intro g hg; simp [exAssetM, exAssetE] at hg)
      (by decide) (by decide) (by decide)
    refine ⟨st2, he, ?_⟩
    rw [hw]
    rfl

theorem lookupFp_isSome_iff {s : List (Str × FInfo)} {p : Str} :
    (lookupFp s p).isSome = true ↔ p ∈ s.map Prod.fst := by
  induction s with
  | nil => simp [lookupFp]
  | cons e t ih =>
    by_cases he : e.1 = p
    · simp [lookupFp, List.find?, he]
    · simp only [lookupFp, List.find?, decide_eq_false he] at ih ⊢
      simp only [List.map_cons, List.mem_cons]
      rw [ih]
      constructor
      · exact Or.inr
      · rintro (h | h)
        · exact absurd h.symm he
        · exact h

theorem lookupFp_mem {s : List (Str × FInfo)} {p : Str} {fi : FInfo}
    (h : lookupFp s p = some fi) : (p, fi) ∈ s := by
  induction s with
  | nil => simp [lookupFp] at h
  | cons e t ih =>
    by_cases he : e.1 = p
    · simp only [lookupFp, List.find?, decide_eq_true he] at h
      simp at h
      exact List.mem_cons.mpr (Or.inl (by rw [← he, ← h]))
    · simp only [lookupFp, List.find?, decide_eq_false he] at h ih
      exact List.mem_cons_of_mem _ (ih h)

theorem mem_lookupFp {s : List (Str × FInfo)} {p : Str} {fi : FInfo}
    (hnd : (s.map Prod.fst).Nodup) (h : (p, fi) ∈ s) : lookupFp s p = some fi := by
  induction s with
  | nil => simp at h
  | cons e t ih =>
    simp only [List.map_cons, List.nodup_cons] at hnd
    rcases List.mem_cons.mp h with rfl | hm
    · simp [lookupFp, List.find?]
    · by_cases he : e.1 = p
      · exfalso
        exact hnd.1 (he ▸ (List.mem_map.mpr ⟨(p, fi), hm, rfl⟩))
      · simp only [lookupFp, List.find?, decide_eq_false he]
        exact ih hnd.2 hm

theorem fpChanged_iff {o n : FInfo} : fpChanged o n = true ↔ fpDifferSpec o n := by
  unfold fpChanged fpDifferSpec
  split_ifs with h1 h2 h3 h4 <;> simp_all

theorem fpChanged_refl (o : FInfo) : fpChanged o o = false := by
  simp [fpChanged]



theorem checkState_iff {old ns : List (Str × FInfo)}
    (hold : (old.map Prod.fst).Nodup) (hns : (ns.map Prod.fst).Nodup) :
    checkState old ns = true ↔ snapshotsDiffer old ns := by
  unfold checkState snapshotsDiffer
  split
  next hlen =>
    simp only [true_iff]
    left
    intro hall
    apply hlen
    have hperm := (List.perm_ext_iff_of_nodup hold hns).mpr hall
    have h1 : (old.map Prod.fst).length = (ns.map Prod.fst).length := hperm.length_eq
    simpa using h1.symm
  next hlen =>
    split
    next hany =>
      simp only [true_iff]
      obtain ⟨e, he, hcond⟩ := List.any_eq_true.mp hany
      cases hl : lookupFp old e.1 with
      | none =>
        left
        intro hall
        have hm : e.1 ∈ old.map Prod.fst :=
          (hall e.1).mpr (List.mem_map.mpr ⟨e, he, rfl⟩)
        rw [← lookupFp_isSome_iff, hl] at hm
        cases hm
      | some ofi =>
        right
        refine ⟨e.1, ofi, e.2, hl, mem_lookupFp hns ?_, ?_⟩
        · simpa using he
        · simp only [hl] at hcond
          exact fpChanged_iff.mp hcond
    next hany =>
      split
      next hdel =>
        simp only [true_iff]
        obtain ⟨e, he, hcond⟩ := List.any_eq_true.mp hdel
        left
        intro hall
        have h1 : e.1 ∈ ns.map Prod.fst :=
          (hall e.1).mp (List.mem_map.mpr ⟨e, he, rfl⟩)
        rw [← lookupFp_isSome_iff] at h1
        rw [Option.isNone_iff_eq_none.mp hcond] at h1
        cases h1
      next hdel =>
        refine iff_of_false (by simp) ?_
        rintro (hsets | ⟨p, ofi, nfi, hlo, hln, hdif⟩)
        · apply hsets
          intro p
          constructor
          · intro hp
            obtain ⟨e, he, rfl⟩ := List.mem_map.mp hp
            have hD := fun htrue => hdel (List.any_eq_true.mpr ⟨e, he, htrue⟩)
            rw [← lookupFp_isSome_iff]
            cases hl : lookupFp ns e.1 with
            | none => exact absurd (by simp [hl]) hD
            | some nfi => rfl
          · intro hp
            obtain ⟨e, he, rfl⟩ := List.mem_map.mp hp
            have hF := fun htrue => hany (List.any_eq_true.mpr ⟨e, he, htrue⟩)
            rw [← lookupFp_isSome_iff]
            cases hl : lookupFp old e.1 with
            | none => exact absurd (by simp [hl]) hF
            | some ofi => rfl
        · have hm : (p, nfi) ∈ ns := lookupFp_mem hln
          have hF := fun htrue => hany (List.any_eq_true.mpr ⟨(p, nfi), hm, htrue⟩)
          apply hF
          simp only [hlo]
          exact fpChanged_iff.mpr hdif



theorem checkState_self {s : List (Str × FInfo)} (h : (s.map Prod.fst).Nodup) :
    checkState s s = false := by
  unfold checkState
  split
  next hlen => exact absurd rfl hlen
  next =>
    split
    next hany =>
      exfalso
      obtain ⟨e, he, hcond⟩ := List.any_eq_true.mp hany
      have hm : (e.1, e.2) ∈ s := by simpa using he
      simp only [mem_lookupFp h hm] at hcond
      rw [fpChanged_refl] at hcond
      cases hcond
    next =>
      split
      next hdel =>
        exfalso
        obtain ⟨e, he, hcond⟩ := List.any_eq_true.mp hdel
        have hm : (e.1, e.2) ∈ s := by simpa using he
        simp only [mem_lookupFp h hm] at hcond
        cases hcond
      next => rfl

mutual

theorem walkNode_congr (mf : Str → Str → Bool) (globs : List Str) (parent : Str)
    (t1 t2 : FsTree) (h : sameOffExcluded mf globs parent t1 t2) :
    walkNode mf globs parent t1 = walkNode mf globs parent t2 := by
  cases t1 with | node n1 f1 c1 =>
  cases t2 with | node n2 f2 c2 =>
  unfold sameOffExcluded at h
  rcases h with ⟨h1, h2⟩ | ⟨hn, hf, hkids⟩
  · simp only [walkNode]
    rw [if_pos h1, if_pos h2]
  · cases hn
    cases hf
    simp only [walkNode]
    by_cases hex :
        matchedByGlobs mf globs (if parent = [] then n1 else pathJoin parent n1) n1 = true
    · simp only [if_pos hex]
    · simp only [if_neg hex]
      congr 1
      cases hd : f1.isDir
      · simp [hd]
      · simp only [hd, if_true]
        exact walkKids_congr mf globs _ c1 c2 hkids

theorem walkKids_congr (mf : Str → Str → Bool) (globs : List Str) (parent : Str)
    (l1 l2 : List FsTree) (h : sameKidsOffExcluded mf globs parent l1 l2) :
    walkKids mf globs parent l1 = walkKids mf globs parent l2 := by
  match l1, l2, h with
  | [], [], _ => rfl
  | t :: ts, u :: us, h =>
    unfold sameKidsOffExcluded at h
    unfold walkKids
    rw [walkNode_congr mf globs parent t u h.1,
      walkKids_congr mf globs parent ts us h.2]
  | [], _ :: _, h => exact absurd h (by unfold sameKidsOffExcluded; simp)
  | _ :: _, [], h => exact absurd h (by unfold sameKidsOffExcluded; simp)

end




/-- C5: `check` reports a change exactly when the two snapshots differ in
the specification's sense — their path sets differ, or some shared path's
fingerprint differs (directories compared by mode only, files by mode,
modification time and size) — for snapshots with no duplicate paths (as
produced from a filesystem walk); and consequently two walks of trees that
differ only at glob-excluded nodes (excluded directories contributing no
descendants) produce equal snapshots, so no change is reported. -/
theorem kkr_c5 (mf : Str → Str → Bool) (globs : List Str)
    (old ns : List (Str × FInfo))
    (hold : (old.map Prod.fst).Nodup) (hns : (ns.map Prod.fst).Nodup) :
    (checkState old ns = true ↔ snapshotsDiffer old ns)
    ∧ (∀ t1 t2 : FsTree, sameOffExcluded mf globs [] t1 t2 →
        ((getState mf globs t1).map Prod.fst).Nodup →
        checkState (getState mf globs t1) (getState mf globs t2) = false) := by
  refine ⟨checkState_iff hold hns, ?_⟩
  intro t1 t2 hsame hnd
  unfold getState at hnd ⊢
  rw [← walkNode_congr mf globs [] t1 t2 hsame]
  exact checkState_self hnd

/-- Witness for C5: a one-file snapshot whose modification time changed is
reported as a change; modifying only the glob-excluded `skip.txt` under the
watched root yields no change report. -/
theorem kkr_c5_witness :
    checkState exSnapOld exSnapNew = true
    ∧ checkState (getState exMatcher exGlobs exTreeA) (getState exMatcher exGlobs exTreeB)
      = false := by
  constructor
  · exact (kkr_c5 exMatcher exGlobs exSnapOld exSnapNew (by decide) (by decide)).1.mpr
      (Or.inr ⟨"x".toList, exFi1, exFi2, by decide, by decide,
        Or.inr ⟨rfl, Or.inl (by decide)⟩⟩)
  · apply (kkr_c5 exMatcher exGlobs exSnapOld exSnapNew (by decide) (by decide)).2
    · unfold exTreeA exTreeB sameOffExcluded
      refine Or.inr ⟨rfl, rfl, ?_⟩
      unfold sameKidsOffExcluded
      refine ⟨?_, ?_⟩
      · unfold sameOffExcluded
        refine Or.inr ⟨rfl, rfl, ?_⟩
        unfold sameKidsOffExcluded
        trivial
      · unfold sameKidsOffExcluded
        refine ⟨?_, trivial⟩
        unfold sameOffExcluded
        exact Or.inl ⟨by decide, by decide⟩
    · decide

theorem bRead_buffered {b rest : List Nat} (n : Nat) (hb : b ≠ []) :
    bRead ⟨b, rest⟩ n = some (b.take n, ⟨b.drop n, rest⟩) := by
  unfold bRead
  simp [hb]

theorem bRead_fill {rest : List Nat} (n : Nat) (hr : rest ≠ []) (hn : n < bufSize) :
    bRead ⟨[], rest⟩ n =
      some ((rest.take bufSize).take n,
        ⟨(rest.take bufSize).drop n, rest.drop bufSize⟩) := by
  unfold bRead
  simp [hr, Nat.not_le.mpr hn]

theorem bReadFull_buffered {b rest : List Nat} {n : Nat} (hb : b ≠ [])
    (hlen : n ≤ b.length) (hn : 0 < n) :
    bReadFull ⟨b, rest⟩ n = .ok (b.take n) ⟨b.drop n, rest⟩ := by
  unfold bReadFull
  cases n with
  | zero => exact absurd hn (by simp)
  | succ k =>
    unfold bReadFullAux
    rw [bRead_buffered (k + 1) hb]
    have hl : (b.take (k + 1)).length = k + 1 := by
      rw [List.length_take]
      omega
    simp only [hl]
    simp only [Nat.sub_self]
    unfold bReadFullAux
    simp

theorem c10_serialize : writeToFile exC10Map = some exC10File := by
  unfold writeToFile exC10Map exC10File exC10Head exC10Path exC10Hash
  rw [if_neg]
  · simp [-List.reduceReplicate, le64, le16, List.flatMap]
  · simp [-List.reduceReplicate, maxPathLen]

theorem c10_parse : newFromFile exC10File = none := by
  have h1 : bRead ⟨[], exC10File⟩ 1 =
      some ([0], ⟨exC10Head ++ List.replicate 4085 97, List.replicate 11 97 ++ exC10Hash⟩) := by
    rw [bRead_fill 1 (by simp [exC10File]) (by norm_num [bufSize])]
    have ht : exC10File.take bufSize = 0 :: exC10Head ++ List.replicate 4085 97 := by
      simp [-List.reduceReplicate, exC10File, exC10Head, exC10Path, exC10Hash, bufSize,
        List.take_append_eq_append_take, List.take_replicate]
    rw [ht]
    have hd : exC10File.drop bufSize = List.replicate 11 97 ++ exC10Hash := by
      simp [-List.reduceReplicate, exC10File, exC10Head, exC10Path, exC10Hash, bufSize,
        List.drop_append_eq_append_drop, List.drop_replicate]
    rw [hd]
    rfl
  have h2 : bReadFull ⟨exC10Head ++ List.replicate 4085 97,
      List.replicate 11 97 ++ exC10Hash⟩ 8 =
      .ok [1, 0, 0, 0, 0, 0, 0, 0]
        ⟨[0, 16] ++ List.replicate 4085 97, List.replicate 11 97 ++ exC10Hash⟩ := by
    rw [bReadFull_buffered (by simp [-List.reduceReplicate, exC10Head])
      (by simp [-List.reduceReplicate, exC10Head]) (by norm_num)]
    have ht : (exC10Head ++ List.replicate 4085 97).take 8 = [1, 0, 0, 0, 0, 0, 0, 0] := by
      simp [-List.reduceReplicate, exC10Head, List.take_append_eq_append_take]
    have hd : (exC10Head ++ List.replicate 4085 97).drop 8
        = [0, 16] ++ List.replicate 4085 97 := by
      simp [-List.reduceReplicate, exC10Head, List.drop_append_eq_append_drop]
    rw [ht, hd]
  have h3a : bReadFull ⟨[0, 16] ++ List.replicate 4085 97,
      List.replicate 11 97 ++ exC10Hash⟩ 2 =
      .ok [0, 16] ⟨List.replicate 4085 97, List.replicate 11 97 ++ exC10Hash⟩ := by
    rw [bReadFull_buffered (by simp [-List.reduceReplicate])
      (by simp [-List.reduceReplicate]) (by norm_num)]
    have ht : (([0, 16] : List Nat) ++ List.replicate 4085 97).take 2 = [0, 16] := by
      simp [-List.reduceReplicate, List.take_append_eq_append_take]
    have hd : (([0, 16] : List Nat) ++ List.replicate 4085 97).drop 2
        = List.replicate 4085 97 := by
      simp [-List.reduceReplicate, List.drop_append_eq_append_drop]
    rw [ht, hd]
  have h3c : bRead ⟨List.replicate 4085 97, List.replicate 11 97 ++ exC10Hash⟩ 4096 =
      some (List.replicate 4085 97, ⟨[], List.replicate 11 97 ++ exC10Hash⟩) := by
    rw [bRead_buffered 4096 (by simp [-List.reduceReplicate])]
    have ht : (List.replicate 4085 (97:Nat)).take 4096 = List.replicate 4085 97 := by
      rw [List.take_replicate]
      norm_num
    have hd : (List.replicate 4085 (97:Nat)).drop 4096 = [] := by
      rw [List.drop_replicate]
      norm_num
    rw [ht, hd]
  have h3d : bRead ⟨[], List.replicate 11 97 ++ exC10Hash⟩ 16 =
      some (List.replicate 11 97 ++ List.replicate 5 255, ⟨List.replicate 11 255, []⟩) := by
    rw [bRead_fill 16 (by simp [-List.reduceReplicate]) (by norm_num [bufSize])]
    have hR : (List.replicate 11 97 ++ exC10Hash).take bufSize
        = List.replicate 11 97 ++ exC10Hash := by
      apply List.take_of_length_le
      simp [-List.reduceReplicate, exC10Hash, bufSize]
    have hR2 : (List.replicate 11 97 ++ exC10Hash).drop bufSize = [] := by
      apply List.drop_of_length_le
      simp [-List.reduceReplicate, exC10Hash, bufSize]
    rw [hR, hR2]
    have ht : (List.replicate 11 97 ++ exC10Hash).take 16
        = List.replicate 11 97 ++ List.replicate 5 255 := by
      simp [-List.reduceReplicate, exC10Hash,
        List.take_append_eq_append_take, List.take_replicate]
    have hd : (List.replicate 11 97 ++ exC10Hash).drop 16 = List.replicate 11 255 := by
      simp [-List.reduceReplicate, exC10Hash,
        List.drop_append_eq_append_drop, List.drop_replicate]
    rw [ht, hd]
  have hstep1 : newFromFileStep [] (List.replicate 16 0)
      ⟨[0, 16] ++ List.replicate 4085 97, List.replicate 11 97 ++ exC10Hash⟩ =
      .cont [(List.replicate 4085 97 ++ List.replicate 11 0,
              List.replicate 11 97 ++ List.replicate 5 255)]
        (List.replicate 11 97 ++ List.replicate 5 255)
        ⟨List.replicate 11 255, []⟩ := by
    unfold newFromFileStep
    rw [h3a]
    dsimp only []
    rw [show de16 [0, 16] = 4096 from rfl]
    rw [if_neg (by norm_num [maxPathLen])]
    rw [h3c]
    dsimp only []
    rw [h3d]
    dsimp only []
    have hlen43 : (List.replicate 4085 (97:Nat)).length = 4085 := by
      simp [-List.reduceReplicate]
    rw [hlen43]
    rw [show (4096 - 4085 : Nat) = 11 from rfl]
    have hlen5 : (List.replicate 11 97 ++ List.replicate 5 (255:Nat)).length = 16 := by
      simp [-List.reduceReplicate]
    rw [hlen5]
    have hdrop : (List.replicate 16 (0:Nat)).drop 16 = [] := by
      rw [List.drop_replicate]
      norm_num
    rw [hdrop]
    rw [List.append_nil]
    rw [show mapPut [] (List.replicate 4085 97 ++ List.replicate 11 0)
        (List.replicate 11 97 ++ List.replicate 5 255)
      = [(List.replicate 4085 97 ++ List.replicate 11 0,
          List.replicate 11 97 ++ List.replicate 5 255)] from rfl]
  have h4a : bReadFull ⟨List.replicate 11 255, []⟩ 2 =
      .ok [255, 255] ⟨List.replicate 9 255, []⟩ := by
    rw [bReadFull_buffered (by simp [-List.reduceReplicate])
      (by simp [-List.reduceReplicate]) (by norm_num)]
    have ht : (List.replicate 11 (255:Nat)).take 2 = [255, 255] := by
      rw [List.take_replicate]
      rfl
    have hd : (List.replicate 11 (255:Nat)).drop 2 = List.replicate 9 255 := by
      rw [List.drop_replicate]
    rw [ht, hd]
  have hstep2 : newFromFileStep
      [(List.replicate 4085 97 ++ List.replicate 11 0,
        List.replicate 11 97 ++ List.replicate 5 255)]
      (List.replicate 11 97 ++ List.replicate 5 255)
      ⟨List.replicate 11 255, []⟩ = .fail := by
    unfold newFromFileStep
    rw [h4a]
    dsimp only []
    rw [show de16 [255, 255] = 65535 from rfl]
    rw [if_pos (by norm_num [maxPathLen])]
  have hflen : exC10File.length = 4122 + 1 := by
    simp [-List.reduceReplicate, exC10File, exC10Head, exC10Path, exC10Hash]
  unfold newFromFile
  dsimp only []
  rw [h1]
  dsimp only []
  rw [if_neg (by norm_num)]
  rw [h2]
  dsimp only []
  rw [hflen]
  unfold newFromFileLoop
  rw [hstep1]
  dsimp only []
  unfold newFromFileLoop
  rw [hstep2]

/-- C10: the counterexample evaluated.  Every path of the cache `exC10Map`
respects `MaxPathLen`, `WriteToFile` serializes it successfully, yet
`NewFromFile` on the produced file returns an error instead of the original
map: the first buffer fill consumes 4096 of the 4123 file bytes, so the
single `r.Read(pathBytes)` call returns a 4085-byte short read whose count is
ignored, the stream desynchronizes, and the next path-length field is read
from hash bytes (65535 > `MaxPathLen`). -/
theorem kkr_c10 :
    (∀ e ∈ exC10Map, e.1.length ≤ maxPathLen)
    ∧ writeToFile exC10Map = some exC10File
    ∧ newFromFile exC10File = none := by
  refine ⟨?_, c10_serialize, c10_parse⟩
  intro e he
  simp only [exC10Map, List.mem_singleton] at he
  subst he
  simp [-List.reduceReplicate, exC10Path, maxPathLen]

/-- C9: the interval defaulting of `Watch` evaluated on concrete arguments.
A zero interval does default to 1 second and a negative `sleepInterval` does
make the idle interval equal the active one; but a zero `sleepInterval`
yields `DefaultInterval * 5` (5 seconds), not five times the active
interval: with an explicit active interval of 2 seconds the idle interval is
5 seconds, not the 10 seconds the claim (and the source's own doc comment,
fspoll.go line 36) state. -/
theorem kkr_c9 :
    watchIntervals 0 0 = (1000000000, 5000000000)
    ∧ watchIntervals 0 (-1) = (defaultInterval, defaultInterval)
    ∧ watchIntervals 2000000000 (-1) = (2000000000, 2000000000)
    ∧ watchIntervals 2000000000 0 = (2000000000, 5000000000)
    ∧ (5000000000 : Int) ≠ 5 * 2000000000 := by
  refine ⟨rfl, rfl, rfl, rfl, by decide⟩

/-- C7: the interval bookkeeping of the polling loop evaluated on concrete
arguments.  When a change is detected after a quiet gap longer than
`SleepAfter`, the sleep right after the emitted change uses the idle
interval, not the active one; and when no change is detected, the interval
never switches (so it does not become idle merely because the quiet period
exceeded the threshold).  Both directions contradict the claim (and the
source's own doc comment, fspoll.go lines 35-37). -/
theorem kkr_c7 :
    pollStep 1000000000 5000000000 true 301000000000 0 1000000000
      = (5000000000, 301000000000)
    ∧ pollStep 1000000000 5000000000 false 301000000000 0 5000000000
      = (5000000000, 0)
    ∧ pollStep 1000000000 5000000000 false 301000000000 0 1000000000
      = (1000000000, 0)
    ∧ (5000000000 : Int) ≠ 1000000000 := by
  refine ⟨?_, ?_, ?_, by decide⟩ <;> · simp [pollStep, sleepAfter]

/-- C6: the completion-message protocol of `WriteFile` evaluated on concrete
outcomes.  A fully successful compression goroutine sends exactly one
message, but none of the error branches returns, so a goroutine whose
`z.Write` fails sends its error and then still sends the final `nil`
(two messages); the collector only counts `nwriters` receives, so in the
arrival order where the failing compressor's two messages arrive first,
`WriteFile` returns the compressor's error after consuming only compressor
messages — before the primary writer's completion message was received.
The compressed file is removed (before the error is sent) whenever a
compression step fails, and the goroutine never touches the primary file. -/
theorem kkr_c6 :
    compressorSends (E := Nat) none none none none = [none]
    ∧ compressorSends (E := Nat) none (some 0) none none = [some 0, none]
    ∧ compressedRemoved (E := Nat) (some 0) none none = true
    ∧ Merge (primarySends (E := Nat) none)
        (compressorSends (E := Nat) none (some 0) none none)
        [some 0, none, none]
    ∧ List.take 2 [some (0 : Nat), none, none]
        = compressorSends (E := Nat) none (some 0) none none
    ∧ writeFileReturn [some (0 : Nat), none, none] 2 = some 0 := by
  exact ⟨rfl, rfl, rfl, .right (.right (.left .nil)), rfl, rfl⟩

/-- C4: `LoadPage` returns a cached page without re-reading, re-parsing or
invoking the collaborators exactly when caching is enabled, an entry exists
for the full path and its stored fingerprint matches the file on disk
(`metafile.Changed` reports false, which covers fingerprint mismatch and
stat failure); on a hit the cached object is returned and the cache is left
untouched; in every other case a full parse runs and, when caching is
enabled, its result replaces the entry for the path, carrying the freshly
observed fingerprint. -/
theorem kkr_c4 (w : SiteWorld) (cache : Option (List (Str × SPage)))
    (basedir filename : Str) :
    ((loadPage w cache basedir filename).parsed = false ↔
      (∃ m page, cache = some m
        ∧ cacheGet m (pathJoin basedir filename) = some page
        ∧ changed w.stat (pathJoin basedir filename) page.fi = false))
    ∧ (∀ m page, cache = some m →
        cacheGet m (pathJoin basedir filename) = some page →
        changed w.stat (pathJoin basedir filename) page.fi = false →
        loadPage w cache basedir filename = ⟨some page, false, cache⟩)
    ∧ (∀ fi pd, (loadPage w cache basedir filename).parsed = true →
        w.stat (pathJoin basedir filename) = some fi →
        w.parse (pathJoin basedir filename) = some pd →
        loadPage w cache basedir filename =
          ⟨some ⟨fi, pd⟩, true,
            match cache with
            | none => none
            | some m => some (cachePut m (pathJoin basedir filename) ⟨fi, pd⟩)⟩) := by
  unfold loadPage
  rcases cache with _ | m
  · constructor
    · constructor
      · intro h
        simp at h
        cases hs : w.stat (pathJoin basedir filename) <;>
          cases hp : w.parse (pathJoin basedir filename) <;>
            simp [hs, hp] at h
      · rintro ⟨m, page, h, -⟩
        exact absurd h (by simp)
    · constructor
      · rintro m page h
        exact absurd h (by simp)
      · intro fi pd _ hs hp
        simp [hs, hp]
  · cases hg : cacheGet m (pathJoin basedir filename) with
    | none =>
      constructor
      · constructor
        · intro h
          cases hs : w.stat (pathJoin basedir filename) <;>
            cases hp : w.parse (pathJoin basedir filename) <;>
              simp [hg, hs, hp] at h
        · rintro ⟨m', page, hm, hget, -⟩
          cases hm
          simp [hg] at hget
      · constructor
        · rintro m' page hm hget
          cases hm
          simp [hg] at hget
        · intro fi pd _ hs hp
          simp [hg, hs, hp]
    | some page =>
      cases hc : changed w.stat (pathJoin basedir filename) page.fi with
      | true =>
        constructor
        · constructor
          · intro h
            cases hs : w.stat (pathJoin basedir filename) <;>
              cases hp : w.parse (pathJoin basedir filename) <;>
                simp [hg, hc, hs, hp] at h
          · rintro ⟨m', page', hm, hget, hch⟩
            cases hm
            rw [hg] at hget
            cases hget
            rw [hc] at hch
            cases hch
        · constructor
          · rintro m' page' hm hget hch
            cases hm
            rw [hg] at hget
            cases hget
            rw [hc] at hch
            cases hch
          · intro fi pd _ hs hp
            simp [hg, hc, hs, hp]
      | false =>
        constructor
        · constructor
          · intro _
            exact ⟨m, page, rfl, hg, hc⟩
          · intro _
            simp [hg, hc]
        · constructor
          · rintro m' page' hm hget hch
            cases hm
            rw [hg] at hget
            cases hget
            simp [hg, hc]
          · intro fi pd h hs hp
            simp [hg, hc] at h

/-- Witness for C4: with the example page cached under its full path and an
unchanged fingerprint, `LoadPage` returns the cached object without parsing
and leaves the cache untouched; with caching disabled, it parses and returns
a page carrying the freshly observed fingerprint. -/
theorem kkr_c4_witness :
    loadPage exWorld (some [(exPageName, exPage)]) "d".toList "f.md".toList
      = ⟨some exPage, false, some [(exPageName, exPage)]⟩
    ∧ loadPage exWorld none "d".toList "f.md".toList
      = ⟨some ⟨exFp, ⟨"body".toList⟩⟩, true, none⟩ := by
  constructor
  · exact (kkr_c4 exWorld (some [(exPageName, exPage)]) "d".toList "f.md".toList).2.1
      [(exPageName, exPage)] exPage rfl (by decide) (by decide)
  · exact (kkr_c4 exWorld none "d".toList "f.md".toList).2.2 exFp ⟨"body".toList⟩
      (by decide) (by decide) (by decide)

end KkrProof
